import Mathlib

/-
Verification of the `data-structs` repository: a growable contiguous array
(`vector/src/lib.rs`) and a separate-chaining hash map (`hash-map/src/lib.rs`).

Shallow embedding conventions:
* Raw memory behind a `RawVec` is modelled as a total function `Nat → Option T`
  from slot indices to contents; `none` is uninitialized memory.  `ptr::write`
  becomes `mwrite`, and `ptr::copy` (memmove: reads from a snapshot of the
  source range) becomes `mcopy`.
* The allocation address is carried as an abstract identifier `ptr : Nat`;
  a successful `realloc` in `grow` is modelled as keeping contents and
  identity (only the capacity changes), and allocation failure (a process
  abort in the source) is not modelled.  No theorem depends on the address
  value except the Clone/Drop analysis, which only needs that the derived
  `Clone` copies the field.
* A Rust function that can panic is embedded with an `Option` result:
  `none` is a panic, `some` carries the normal result.  `Map::index`, whose
  panic diagnostic matters, returns `Except String` carrying the message.
* Machine integers are `Nat`; the only place where the 64-bit width could
  matter is the `!0` capacity sentinel, kept as `2 ^ 64 - 1`.
* The map is generic over the key type exactly as the source is generic over
  `K: Hash + Eq`: the FNV hash of a key is an arbitrary parameter
  `hashK : K → Nat` (the source's `hasher.finish()` value) and key equality
  is `DecidableEq K`.
-/

set_option maxHeartbeats 1000000

namespace DS

/-! ## Raw memory primitives -/

/-- `ptr::write(p.offset(i), x)`: update one slot. -/
def mwrite {T : Type} (m : Nat → Option T) (i : Nat) (x : T) : Nat → Option T :=
  fun j => if j = i then some x else m j

/-- `ptr::copy(p.offset(src), p.offset(dst), n)`: memmove semantics — the
destination range `[dst, dst+n)` receives the original contents of
`[src, src+n)`; all other slots are untouched. -/
def mcopy {T : Type} (m : Nat → Option T) (src dst n : Nat) : Nat → Option T :=
  fun j => if dst ≤ j ∧ j < dst + n then m (src + (j - dst)) else m j

/-! ## `RawVec<T>` (vector/src/lib.rs lines 10-78) -/

/-- `struct RawVec<T> { ptr: Unique<T>, cap: usize }`, with the allocation's
contents adjoined (`mem`) so the array on top can be specified. -/
structure RawVec (T : Type) where
  ptr : Nat
  mem : Nat → Option T
  cap : Nat

/-- `RawVec::new`: `cap = if size_of::<T>() == 0 { !0 } else { 0 }`, dangling
pointer (`Unique::empty`), no allocation.  `itemSize` is `mem::size_of::<T>()`. -/
def usizeMax : Nat := 2 ^ 64 - 1

def RawVec.new (T : Type) (itemSize : Nat) : RawVec T :=
  { ptr := 0, mem := fun _ => none, cap := if itemSize = 0 then usizeMax else 0 }

/-- `RawVec::grow`: capacity 0 becomes 1, otherwise it doubles; `realloc`
preserves the contents.  (A moved allocation address is irrelevant to every
claim, so `ptr` is kept; allocation failure aborts and is not modelled.) -/
def RawVec.grow {T : Type} (r : RawVec T) : RawVec T :=
  if r.cap = 0 then { r with cap := 1 } else { r with cap := 2 * r.cap }

/-- `impl Drop for RawVec`: deallocates `ptr` iff `cap != 0 && size_of::<T>() != 0`.
The result is the address freed by this instance's destructor, if any. -/
def RawVec.dropFrees {T : Type} (itemSize : Nat) (r : RawVec T) : Option Nat :=
  if r.cap ≠ 0 ∧ itemSize ≠ 0 then some r.ptr else none

/-- `#[derive(Clone)]` on `RawVec<T>` clones field-wise; `Unique<T>` is `Copy`,
so the raw pointer value is duplicated into the clone. -/
def RawVec.clone {T : Type} (r : RawVec T) : RawVec T :=
  { ptr := r.ptr, mem := r.mem, cap := r.cap }

/-! ## `Vector<T>` (vector/src/lib.rs lines 80-257) -/

/-- `pub struct Vector<T> { buff: RawVec<T>, len: usize }` -/
structure Vector (T : Type) where
  buff : RawVec T
  len : Nat

/-- `Vector::new`: `assert!(mem::size_of::<T>() != 0)` then an empty vector.
`none` is the assertion failure. -/
def Vector.new (T : Type) (itemSize : Nat) : Option (Vector T) :=
  if itemSize ≠ 0 then some { buff := RawVec.new T itemSize, len := 0 } else none

def Vector.cap {T : Type} (v : Vector T) : Nat := v.buff.cap

/-- `if self.len == self.cap() { self.buff.grow() }` — the growth step shared
by `push` and `insert`. -/
def Vector.growIf {T : Type} (v : Vector T) : Vector T :=
  if v.len = v.cap then { v with buff := v.buff.grow } else v

/-- `Vector::push`: grow when full, write at slot `len`, increment `len`. -/
def Vector.push {T : Type} (v : Vector T) (item : T) : Vector T :=
  let v := v.growIf
  { v with buff := { v.buff with mem := mwrite v.buff.mem v.len item }, len := v.len + 1 }

/-- `Vector::pop`: `None` when empty; otherwise decrement `len` first, then
read the slot at the new `len`. -/
def Vector.pop {T : Type} (v : Vector T) : Option T × Vector T :=
  if v.len = 0 then (none, v)
  else (v.buff.mem (v.len - 1), { v with len := v.len - 1 })

/-- `Vector::insert`: `assert!(idx <= self.len)` (`none` = fatal assertion),
grow when full, shift `[idx, len)` one slot right with `ptr::copy`, write the
item at `idx`, increment `len`. -/
def Vector.insert {T : Type} (v : Vector T) (idx : Nat) (item : T) : Option (Vector T) :=
  if idx ≤ v.len then
    let v := v.growIf
    let m := if idx < v.len then mcopy v.buff.mem idx (idx + 1) (v.len - idx) else v.buff.mem
    some { v with buff := { v.buff with mem := mwrite m idx item }, len := v.len + 1 }
  else none

/-- `Vector::remove`: `assert!(idx < self.len)` (`none` = fatal assertion),
decrement `len`, read the slot at `idx`, shift `[idx+1, old len)` one slot
left with `ptr::copy`, return the read element. -/
def Vector.remove {T : Type} (v : Vector T) (idx : Nat) : Option (Option T × Vector T) :=
  if idx < v.len then
    let len' := v.len - 1
    some (v.buff.mem idx,
      { v with buff := { v.buff with mem := mcopy v.buff.mem (idx + 1) idx (len' - idx) },
               len := len' })
  else none

/-- The array's logical element sequence: the first `len` slots in order. -/
def Vector.seq {T : Type} (v : Vector T) : List (Option T) :=
  (List.range v.len).map v.buff.mem

/-- `#[derive(Clone)]` on `Vector<T>` clones `buff` (duplicating the raw
pointer, see `RawVec.clone`) and copies `len`. -/
def Vector.clone {T : Type} (v : Vector T) : Vector T :=
  { buff := v.buff.clone, len := v.len }

/-! ## `Vec<T>` interop (vector/src/lib.rs lines 230-257) -/

/-- The externally-owned contiguous-array representation (`std::vec::Vec<T>`):
pointer, contents, length, capacity. -/
structure StdVec (T : Type) where
  ptr : Nat
  mem : Nat → Option T
  len : Nat
  cap : Nat

/-- `impl From<Vec<T>> for Vector<T>`: transfers `as_mut_ptr()`, `capacity()`,
`len()` directly, then `mem::forget(vec)`; no element is copied and no
size check is performed. -/
def Vector.fromVec {T : Type} (vec : StdVec T) : Vector T :=
  { buff := { ptr := vec.ptr, mem := vec.mem, cap := vec.cap }, len := vec.len }

/-- `impl Into<Vec<T>> for Vector<T>`: transfers `ptr`, `cap`, `len` into
`Vec::from_raw_parts` after `mem::forget(self)`; no element is copied. -/
def Vector.intoVec {T : Type} (v : Vector T) : StdVec T :=
  { ptr := v.buff.ptr, mem := v.buff.mem, len := v.len, cap := v.buff.cap }

/-! ## Concrete vector states used by witnesses -/

/-- The empty `Vector<i64>` produced by `Vector::new()`. -/
def v0 : Vector Nat := { buff := { ptr := 0, mem := fun _ => none, cap := 0 }, len := 0 }

/-- The state of `vector![10, 20]`: two live slots. -/
def vc : Vector Nat :=
  { buff := { ptr := 1, mem := fun j => if j = 0 then some 10 else if j = 1 then some 20 else none,
              cap := 2 },
    len := 2 }

/-- A `Vec<()>` of length 2 (a zero-sized element type; `std` gives such a
`Vec` the unbounded capacity sentinel and a dangling pointer). -/
def svZst : StdVec Unit := { ptr := 1, mem := fun _ => some (), len := 2, cap := usizeMax }

/-! ## `Map<K, V>` (hash-map/src/lib.rs)

The source is generic over `K: Hash + Eq`.  `hashK : K → Nat` stands for the
64-bit FNV digest `hasher.finish()` of a key, and `[DecidableEq K]` for `Eq`.
A `none` result of an operation is a panic. -/

/-- `pub(crate) struct Map<K, V> { buckets: Vec<Vec<(K, V)>>, items: usize,
SIZE: Option<usize> }` -/
structure Map (K V : Type) where
  buckets : List (List (K × V))
  items : Nat
  SIZE : Option Nat
deriving DecidableEq

/-- `Map::new(bucket_size)`: empty bucket vector, zero items. -/
def Map.new {K V : Type} (bucket_size : Option Nat) : Map K V :=
  { buckets := [], items := 0, SIZE := bucket_size }

/-- `Map::bucket` (lines 28-44): `hasher.finish() % self.buckets.len()`.
When `buckets.len() == 0` the remainder-by-zero panics (`none`). -/
def Map.bucketIdx {K V : Type} (hashK : K → Nat) (m : Map K V) (key : K) : Option Nat :=
  if m.buckets.length = 0 then none
  else some (hashK key % m.buckets.length)

/-- One step of the redistribution loop in `Map::resize`:
`new_buckets[hash % new_buckets.len()].push((k, v))`. -/
def place {K V : Type} (hashK : K → Nat) (bs : List (List (K × V))) (kv : K × V) :
    List (List (K × V)) :=
  bs.set (hashK kv.1 % bs.length) (bs.getD (hashK kv.1 % bs.length) [] ++ [kv])

/-- `Map::resize` (lines 46-69): target bucket count is `SIZE` (default 1)
when currently empty, else double; drain every pair in storage order and
re-place it against the new bucket count. -/
def Map.resize {K V : Type} (hashK : K → Nat) (m : Map K V) : Map K V :=
  let target := if m.buckets.length = 0 then m.SIZE.getD 1 else 2 * m.buckets.length
  { m with buckets := (m.buckets.flatten).foldl (place hashK) (List.replicate target []) }

/-- The resize check at the top of `Map::insert` (line 93):
`if self.buckets.is_empty() || self.items > 3 * self.buckets.len() / 4`. -/
def Map.maybeResize {K V : Type} (hashK : K → Nat) (m : Map K V) : Map K V :=
  if m.buckets.length = 0 ∨ m.items > 3 * m.buckets.length / 4 then m.resize hashK else m

/-- The scan-and-replace loop in `Map::insert` (lines 101-105): find the first
pair whose key equals `key`, `mem::replace` its value, and return the previous
value together with the updated bucket; `none` when no pair matches. -/
def replaceVal {K V : Type} [DecidableEq K] (key : K) (val : V) :
    List (K × V) → Option (V × List (K × V))
  | [] => none
  | (k, v) :: rest =>
    if k = key then some (v, (k, val) :: rest)
    else
      match replaceVal key val rest with
      | some (prev, rest') => some (prev, (k, v) :: rest')
      | none => none

/-- The body of `Map::insert` after the resize check: locate the bucket,
unconditionally execute `self.items += 1`, then either replace in place
(returning the previous value) or append the new pair. -/
def Map.insertPostResize {K V : Type} [DecidableEq K] (hashK : K → Nat) (m : Map K V)
    (key : K) (val : V) : Option (Option V × Map K V) :=
  (m.bucketIdx hashK key).map (fun idx =>
    let bucket := m.buckets.getD idx []
    match replaceVal key val bucket with
    | some (prev, bucket') =>
        (some prev, { m with buckets := m.buckets.set idx bucket', items := m.items + 1 })
    | none =>
        (none,
         { m with
            buckets := m.buckets.set idx (bucket ++ [(key, val)])
            items := m.items + 1 }))

/-- `Map::insert` (lines 91-108): resize check, then the insert body. -/
def Map.insert {K V : Type} [DecidableEq K] (hashK : K → Nat) (m : Map K V)
    (key : K) (val : V) : Option (Option V × Map K V) :=
  (m.maybeResize hashK).insertPostResize hashK key val

/-- `Map::get` (lines 137-147): locate the bucket (panics on an empty bucket
vector), scan it for the first pair with an equal key, return its value. -/
def Map.get {K V : Type} [DecidableEq K] (hashK : K → Nat) (m : Map K V) (key : K) :
    Option (Option V) :=
  (m.bucketIdx hashK key).map (fun idx =>
    ((m.buckets.getD idx []).find? (fun kv => decide (kv.1 = key))).map (fun kv => kv.2))

/-- `Vec::swap_remove(i)`: overwrite slot `i` with the last element and pop. -/
def swapRemove {A : Type} (l : List A) (i : Nat) : List A :=
  match l.getLast? with
  | none => l
  | some last => (l.set i last).dropLast

/-- `Map::remove` (lines 163-173): locate the bucket (panic on empty bucket
vector), find the matching pair's position (`?` returns `None` early, leaving
the map untouched), decrement `items`, `swap_remove` the pair. -/
def Map.remove {K V : Type} [DecidableEq K] (hashK : K → Nat) (m : Map K V) (key : K) :
    Option (Option V × Map K V) :=
  (m.bucketIdx hashK key).map (fun idx =>
    let bucket := m.buckets.getD idx []
    match bucket.findIdx? (fun kv => decide (kv.1 = key)) with
    | none => (none, m)
    | some i =>
        ((bucket.get? i).map (fun kv => kv.2),
         { m with buckets := m.buckets.set idx (swapRemove bucket i), items := m.items - 1 }))

/-- `Map::clear` (lines 175-179): zero `items`, clear the bucket vector, resize. -/
def Map.clear {K V : Type} (hashK : K → Nat) (m : Map K V) : Map K V :=
  Map.resize hashK { m with items := 0, buckets := [] }

/-- `Map::entry(key)` followed by `.or_insert(val)` (lines 111-125, 313-331):
an occupied entry leaves the map unchanged; a vacant entry's `insert` pushes
`(key, val)` into the target bucket and never touches `items`.
`or_insert_with(f)` is the same with `val = f()`. -/
def Map.entryOrInsert {K V : Type} [DecidableEq K] (hashK : K → Nat) (m : Map K V)
    (key : K) (val : V) : Option (Map K V) :=
  (m.bucketIdx hashK key).map (fun idx =>
    let bucket := m.buckets.getD idx []
    if (bucket.find? (fun kv => decide (kv.1 = key))).isSome then m
    else { m with buckets := m.buckets.set idx (bucket ++ [(key, val)]) })

/-- `impl Index<&Q> for Map` (lines 182-191):
`self.get(key).expect("uhoh no entry found for key")`.  The error carries the
panic message: the `expect` string when `get` finds nothing, or the Rust
runtime's remainder-by-zero message when `bucket` panics first. -/
def Map.index {K V : Type} [DecidableEq K] (hashK : K → Nat) (m : Map K V) (key : K) :
    Except String V :=
  match m.get hashK key with
  | none => Except.error ("attempt to calculate the remainder with a divisor of zero")
  | some none => Except.error ("uhoh no entry found for key")
  | some (some v) => Except.ok v

/-- The sum of all bucket lengths (the spec's stated meaning of `item_count`). -/
def Map.bucketSum {K V : Type} (m : Map K V) : Nat :=
  (m.buckets.map List.length).sum

/-- Placement invariant: every stored pair sits in the bucket selected by
`hash(key) mod buckets.length` (true of every state the public operations
produce, per the spec's data-model invariant). -/
def Map.WF {K V : Type} (hashK : K → Nat) (m : Map K V) : Prop :=
  ∀ j, j < m.buckets.length →
    ∀ kv ∈ m.buckets.getD j [], hashK kv.1 % m.buckets.length = j

instance {K V : Type} (hashK : K → Nat) (m : Map K V) : Decidable (m.WF hashK) :=
  decidable_of_iff
    (∀ j, j < m.buckets.length →
      ∀ kv ∈ m.buckets.getD j [], hashK kv.1 % m.buckets.length = j) Iff.rfl

/-- A concrete stand-in hash for witness states (the theorems about the map
quantify over the hash function; evaluation needs a specific one). -/
def hashNat : Nat → Nat := fun n => n

/-- Witness state: the map after `insert(0, 10); insert(1, 20)` under `hashNat`. -/
def mapTwo : Map Nat Nat := { buckets := [[(0, 10)], [(1, 20)]], items := 2, SIZE := none }

/-- Witness state: the map `mapTwo` after the resizing `insert(2, 30)`. -/
def mapThree : Map Nat Nat :=
  { buckets := [[(0, 10)], [(1, 20)], [(2, 30)], []], items := 3, SIZE := none }

/-- Witness state: the map after `insert(0, 1)` under `hashNat`. -/
def mapOne : Map Nat Nat := { buckets := [[(0, 1)]], items := 1, SIZE := none }

/-! ## Basic lemmas about the embedding -/

@[simp] theorem RawVec.grow_mem {T : Type} (r : RawVec T) : r.grow.mem = r.mem := by
  unfold RawVec.grow; split <;> rfl

@[simp] theorem Vector.growIf_len {T : Type} (v : Vector T) : v.growIf.len = v.len := by
  unfold Vector.growIf; split <;> rfl

@[simp] theorem Vector.growIf_mem {T : Type} (v : Vector T) : v.growIf.buff.mem = v.buff.mem := by
  unfold Vector.growIf; split
  · exact RawVec.grow_mem v.buff
  · rfl

/-! ## C6: pop on empty, and pop right after push -/

/-- C6: `pop()` on a length-0 array returns the empty indicator and leaves the
array unchanged; `pop()` immediately after `push(x)` returns `x` and restores
the pre-push length. -/
theorem vector_pop_empty_and_lifo {T : Type} (v : Vector T) (x : T) :
    (v.len = 0 → v.pop = (none, v)) ∧
    ((v.push x).pop.1 = some x ∧ (v.push x).pop.2.len = v.len) := by
  refine ⟨fun h => ?_, ?_, ?_⟩
  · unfold Vector.pop; rw [if_pos h]
  · show (Vector.pop _).1 = some x
    unfold Vector.push Vector.pop
    simp [mwrite]
  · show (Vector.pop _).2.len = v.len
    unfold Vector.push Vector.pop
    simp

/-- C6 witness: evaluated on the empty vector and on `push 5`. -/
theorem vector_pop_empty_and_lifo_witness :
    (Vector.pop v0 = (none, v0)) ∧
    ((v0.push 5).pop.1 = some 5 ∧ (v0.push 5).pop.2.len = 0) :=
  ⟨(vector_pop_empty_and_lifo v0 5).1 rfl, (vector_pop_empty_and_lifo v0 5).2⟩

/-! ## C9: Vec round-trip -/

/-- C9: converting a `Vector` into the externally-owned `Vec` representation
and back transfers the pointer, contents, capacity and length unchanged, so
the result equals the original, and in particular its logical element
sequence is preserved. -/
theorem vector_vec_roundtrip {T : Type} (v : Vector T) :
    Vector.fromVec (Vector.intoVec v) = v ∧
    (Vector.fromVec (Vector.intoVec v)).seq = v.seq :=
  ⟨rfl, rfl⟩

/-! ## C10: the zero-sized-type guard and its bypass -/

/-- C10 counterexample: `Vector::new` does fail for a zero-sized element type,
but `From<Vec<T>>` performs no such check: converting a `Vec<()>` of length 2
yields a zero-sized-element `Vector` on which the public operations run
(`pop` returns an element) — refuting "every public array operation is only
ever reachable for element types of non-zero size". -/
theorem zst_vector_reachable_counterexample :
    Vector.new Unit 0 = none ∧
    (Vector.fromVec svZst).len = 2 ∧
    ((Vector.fromVec svZst).pop).1 = some () ∧
    ((Vector.fromVec svZst).pop).2.len = 1 :=
  ⟨rfl, rfl, rfl, rfl⟩

/-- C10 amended: the `Vector::new` constructor fails fatally exactly for
zero-sized element types, but the `From<Vec<T>>` conversion performs no size
check and yields a working array for any element type, so the array
operations remain reachable for zero-sized types through conversion. -/
theorem vector_new_zst_amended {T : Type} (sv : StdVec T) (n : Nat) :
    Vector.new T 0 = none ∧
    Vector.new T (n + 1) = some { buff := RawVec.new T (n + 1), len := 0 } ∧
    (Vector.fromVec sv).len = sv.len ∧
    (Vector.fromVec sv).seq = (List.range sv.len).map sv.mem :=
  ⟨rfl, rfl, rfl, rfl⟩

/-! ## C8: derived Clone duplicates the owning pointer -/

/-- C8: the code violates exclusive ownership.  `#[derive(Clone)]` copies the
`Unique` pointer field-wise, so for the buffer of `vector![1]` the clone holds
the same allocation address, and both destructors free that same address —
the allocation is owned by two instances and freed twice. -/
theorem rawvec_clone_double_free :
    ∃ r : RawVec Nat, r.cap ≠ 0 ∧ RawVec.clone r = r ∧
      RawVec.dropFrees 8 (RawVec.clone r) = some r.ptr ∧
      RawVec.dropFrees 8 r = some r.ptr :=
  ⟨{ ptr := 1, mem := fun j => if j = 0 then some 1 else none, cap := 1 },
   by decide, rfl, rfl, rfl⟩

/-! ## C2: get/remove on an absent key of a fresh map panic -/

/-- C2: the code violates the claim on a freshly constructed map.  With zero
buckets, `Map::bucket` computes `hash % 0`, a remainder-by-zero panic
(modelled as `none`), so `get` and `remove` raise a failure instead of
returning the no-value result — for every hash function and every key. -/
theorem fresh_map_get_remove_panics (hashK : Nat → Nat) (k : Nat) :
    Map.get (V := Nat) hashK (Map.new none) k = none ∧
    Map.remove (V := Nat) hashK (Map.new none) k = none :=
  ⟨rfl, rfl⟩

/-! ## C1: re-inserting an existing key increments item_count -/

/-- C1: the code violates the claim.  Inserting key 0 twice: the second
insert does return the previous value `some 1`, but `self.items += 1` runs
before the replace check, so `items` (the value `len()` reports) grows from
1 to 2 while the map still holds exactly one pair. -/
theorem map_reinsert_increments_items :
    ∃ s1 s2 : Map Nat Nat,
      Map.insert hashNat (Map.new none) 0 1 = some (none, s1) ∧
      s1.items = 1 ∧ Map.bucketSum s1 = 1 ∧
      Map.insert hashNat s1 0 2 = some (some 1, s2) ∧
      s2.items = 2 ∧ Map.bucketSum s2 = 1 :=
  ⟨mapOne, { buckets := [[(0, 2)], []], items := 2, SIZE := none },
   rfl, rfl, rfl, rfl, rfl, rfl⟩

/-! ## C3: item_count drifts from the sum of bucket lengths -/

/-- C3: the code violates the invariant.  `VacEntry::insert` (reached through
`entry(k).or_insert(v)` on an absent key) pushes the pair into the bucket but
never increments `items`: after `insert(0,1)` then `entry(1).or_insert(5)`,
`items = 1` while the bucket lengths sum to 2. -/
theorem items_bucket_sum_invariant_broken :
    ∃ s1 s3 : Map Nat Nat,
      Map.insert hashNat (Map.new none) 0 1 = some (none, s1) ∧
      Map.entryOrInsert hashNat s1 1 5 = some s3 ∧
      s3.items = 1 ∧ Map.bucketSum s3 = 2 :=
  ⟨mapOne, { buckets := [[(0, 1), (1, 5)]], items := 1, SIZE := none },
   rfl, rfl, rfl, rfl⟩

/-! ## C7: direct indexing diagnostic -/

/-- C7 counterexample: indexing the absent key 2 does crash, but the
diagnostic is the fixed string `"uhoh no entry found for key"`, which does not
contain the key's rendering `"2"` as a substring — refuting "the diagnostic
it produces includes the offending key". -/
theorem map_index_diagnostic_counterexample :
    Map.index hashNat mapOne 2 = Except.error ("uhoh no entry found for key") ∧
    ¬ ∃ l r : List Char,
        ("uhoh no entry found for key").data = l ++ ("2").data ++ r := by
  refine ⟨rfl, ?_⟩
  rintro ⟨l, r, h⟩
  have h2 : '2' ∈ ("uhoh no entry found for key").data := by
    rw [h]; simp
  exact absurd h2 (by decide)

/-- C7 amended: the direct indexing access returns the stored value for a
present key, and for an absent key fails fatally with the fixed diagnostic
`"uhoh no entry found for key"` (which does not include the key). -/
theorem map_index_amended {K V : Type} [DecidableEq K] (hashK : K → Nat)
    (m : Map K V) (k : K) :
    (Map.get hashK m k = some none →
      Map.index hashK m k = Except.error ("uhoh no entry found for key")) ∧
    (∀ v, Map.get hashK m k = some (some v) → Map.index hashK m k = Except.ok v) := by
  constructor
  · intro h; unfold Map.index; rw [h]
  · intro v h; unfold Map.index; rw [h]

/-- C7 witness: evaluated on the one-pair map, at the absent key 1 and the
present key 0. -/
theorem map_index_amended_witness :
    Map.index hashNat mapOne 1 = Except.error ("uhoh no entry found for key") ∧
    Map.index hashNat mapOne 0 = Except.ok 1 :=
  ⟨(map_index_amended hashNat mapOne 1).1 rfl,
   (map_index_amended hashNat mapOne 0).2 1 rfl⟩

/-! ## C4: insert then remove restores the sequence -/

/-- Pointwise effect on a live slot `j < n` of the shift-right performed by
`insert idx` followed by the shift-left performed by `remove idx`. -/
theorem insert_remove_mem {T : Type} (B : Nat → Option T) (idx n j : Nat) (x : T)
    (hidx : idx ≤ n) (hj : j < n) :
    mcopy (mwrite (if idx < n then mcopy B idx (idx + 1) (n - idx) else B) idx x)
      (idx + 1) idx (n - idx) j = B j := by
  simp only [mcopy, mwrite]
  by_cases hle : idx ≤ j
  · rw [if_pos (⟨hle, by omega⟩ : idx ≤ j ∧ j < idx + (n - idx))]
    rw [(by omega : idx + 1 + (j - idx) = j + 1)]
    rw [if_neg (by omega : ¬ (j + 1 = idx))]
    rw [if_pos (by omega : idx < n)]
    simp only [mcopy]
    rw [if_pos (⟨by omega, by omega⟩ : idx + 1 ≤ j + 1 ∧ j + 1 < idx + 1 + (n - idx))]
    congr 1
    omega
  · rw [if_neg (by omega : ¬ (idx ≤ j ∧ j < idx + (n - idx)))]
    rw [if_neg (by omega : ¬ (j = idx))]
    by_cases hn : idx < n
    · rw [if_pos hn]
      simp only [mcopy]
      rw [if_neg (by omega : ¬ (idx + 1 ≤ j ∧ j < idx + 1 + (n - idx)))]
    · rw [if_neg hn]

/-- Mapping two functions that agree on a list gives equal results. -/
theorem map_congr_mem {A B : Type} {l : List A} {f g : A → B}
    (h : ∀ a ∈ l, f a = g a) : l.map f = l.map g := by
  induction l with
  | nil => rfl
  | cons a t ih =>
    simp only [List.map_cons, h a (List.mem_cons_self a t)]
    exact congrArg _ (ih fun b hb => h b (List.mem_cons_of_mem a hb))

/-- C4: for every index `idx ≤ len`, `insert(idx, x)` immediately followed by
`remove(idx)` succeeds, returns `x`, and restores the logical element
sequence (and length) that held before the insert. -/
theorem vector_insert_remove_roundtrip {T : Type} (v : Vector T) (idx : Nat) (x : T)
    (h : idx ≤ v.len) :
    ∃ v1, v.insert idx x = some v1 ∧
      ∃ r v2, v1.remove idx = some (r, v2) ∧
        r = some x ∧ v2.seq = v.seq ∧ v2.len = v.len := by
  simp only [Vector.insert, if_pos h, Vector.growIf_len, Vector.growIf_mem]
  refine ⟨_, rfl, ?_⟩
  simp only [Vector.remove, Nat.add_sub_cancel]
  rw [if_pos (Nat.lt_succ_of_le h)]
  refine ⟨_, _, rfl, ?_, ?_, rfl⟩
  · simp [mwrite]
  · unfold Vector.seq
    simp only [Nat.add_sub_cancel]
    exact map_congr_mem fun j hj =>
      insert_remove_mem v.buff.mem idx v.len j x h (List.mem_range.mp hj)

/-- C4 witness: evaluated on the two-element vector `vector![10, 20]` at
index 1 with element 9. -/
theorem vector_insert_remove_roundtrip_witness :
    ∃ v1, vc.insert 1 9 = some v1 ∧
      ∃ r v2, v1.remove 1 = some (r, v2) ∧
        r = some 9 ∧ v2.seq = vc.seq ∧ v2.len = vc.len :=
  vector_insert_remove_roundtrip vc 1 9 (by decide)

/-! ## List helpers for the hash-map proofs -/

theorem getD_set_self {A : Type} (l : List A) (i : Nat) (x d : A) (h : i < l.length) :
    (l.set i x).getD i d = x := by
  simp [List.getD_eq_getElem?_getD, List.getElem?_set, h]

theorem getD_set_ne {A : Type} (l : List A) {i j : Nat} (x d : A) (h : i ≠ j) :
    (l.set i x).getD j d = l.getD j d := by
  simp [List.getD_eq_getElem?_getD, List.getElem?_set, h]

theorem getD_replicate {A : Type} (n i : Nat) (x : A) :
    (List.replicate n x).getD i x = x := by
  rw [List.getD_eq_getElem?_getD, List.getElem?_replicate]
  split <;> rfl

theorem getD_eq_of_mem_lt {A : Type} {l : List (List A)} {b : List A} (h : b ∈ l) :
    ∃ i, i < l.length ∧ l.getD i [] = b := by
  obtain ⟨i, hget⟩ := List.mem_iff_get.mp h
  refine ⟨i.1, i.2, ?_⟩
  rw [List.getD_eq_getElem?_getD, List.getElem?_eq_getElem i.2]
  simp only [Option.getD_some]
  rw [← List.get_eq_getElem]
  exact hget

theorem find?_append_some {A : Type} {p : A → Bool} {l1 l2 : List A} {x : A}
    (h : l1.find? p = some x) : (l1 ++ l2).find? p = some x := by
  rw [List.find?_append, h]; rfl

theorem find?_append_none {A : Type} {p : A → Bool} {l1 l2 : List A}
    (h : l1.find? p = none) : (l1 ++ l2).find? p = l2.find? p := by
  rw [List.find?_append, h]; rfl

/-! ## Lemmas about the scan-and-replace loop of `Map::insert` -/

theorem replaceVal_find?_self {K V : Type} [DecidableEq K] {key : K} {val : V}
    {l l' : List (K × V)} {p : V} (h : replaceVal key val l = some (p, l')) :
    (l'.find? (fun kv => decide (kv.1 = key))).map (fun kv => kv.2) = some val := by
  induction l generalizing l' p with
  | nil => simp [replaceVal] at h
  | cons kv rest ih =>
    obtain ⟨a, b⟩ := kv
    simp only [replaceVal] at h
    by_cases hak : a = key
    · rw [if_pos hak] at h
      cases h
      rw [List.find?_cons_of_pos _ (by simp [hak])]
      rfl
    · rw [if_neg hak] at h
      cases hr : replaceVal key val rest with
      | none => rw [hr] at h; simp at h
      | some pr =>
        obtain ⟨p2, r2⟩ := pr
        rw [hr] at h
        cases h
        rw [List.find?_cons_of_neg _ (by simp [hak])]
        exact ih hr

theorem replaceVal_find?_other {K V : Type} [DecidableEq K] {key k' : K} {val : V}
    {l l' : List (K × V)} {p : V} (hne : k' ≠ key)
    (h : replaceVal key val l = some (p, l')) :
    l'.find? (fun kv => decide (kv.1 = k')) = l.find? (fun kv => decide (kv.1 = k')) := by
  induction l generalizing l' p with
  | nil => simp [replaceVal] at h
  | cons kv rest ih =>
    obtain ⟨a, b⟩ := kv
    simp only [replaceVal] at h
    by_cases hak : a = key
    · rw [if_pos hak] at h
      cases h
      have hk : ¬ (a = k') := fun hk => hne (by rw [← hk, hak])
      rw [List.find?_cons_of_neg _ (by simp [hk]), List.find?_cons_of_neg _ (by simp [hk])]
    · rw [if_neg hak] at h
      cases hr : replaceVal key val rest with
      | none => rw [hr] at h; simp at h
      | some pr =>
        obtain ⟨p2, r2⟩ := pr
        rw [hr] at h
        cases h
        by_cases hk : a = k'
        · rw [List.find?_cons_of_pos _ (by simp [hk]), List.find?_cons_of_pos _ (by simp [hk])]
        · rw [List.find?_cons_of_neg _ (by simp [hk]), List.find?_cons_of_neg _ (by simp [hk])]
          exact ih hr

theorem replaceVal_none_find? {K V : Type} [DecidableEq K] {key : K} {val : V}
    {l : List (K × V)} (h : replaceVal key val l = none) :
    l.find? (fun kv => decide (kv.1 = key)) = none := by
  induction l with
  | nil => rfl
  | cons kv rest ih =>
    obtain ⟨a, b⟩ := kv
    simp only [replaceVal] at h
    by_cases hak : a = key
    · rw [if_pos hak] at h; simp at h
    · rw [if_neg hak] at h
      rw [List.find?_cons_of_neg _ (by simp [hak])]
      cases hr : replaceVal key val rest with
      | none => exact ih hr
      | some pr =>
        obtain ⟨p2, r2⟩ := pr
        rw [hr] at h
        simp at h

theorem find?_append_single_other {K V : Type} [DecidableEq K] {k' key : K}
    (hne : k' ≠ key) (val : V) (l : List (K × V)) :
    (l ++ [(key, val)]).find? (fun kv => decide (kv.1 = k')) =
      l.find? (fun kv => decide (kv.1 = k')) := by
  cases hf : l.find? (fun kv => decide (kv.1 = k')) with
  | some x => exact find?_append_some hf
  | none =>
    rw [find?_append_none hf]
    rw [List.find?_cons_of_neg _ (by simp; exact fun hh => hne hh.symm)]
    rfl

/-! ## Lemmas about the redistribution loop of `Map::resize` -/

theorem length_place {K V : Type} (hashK : K → Nat) (bs : List (List (K × V)))
    (kv : K × V) : (place hashK bs kv).length = bs.length :=
  List.length_set bs _ _

theorem length_foldl_place {K V : Type} (hashK : K → Nat) (pairs : List (K × V))
    (bs : List (List (K × V))) : (pairs.foldl (place hashK) bs).length = bs.length := by
  induction pairs generalizing bs with
  | nil => rfl
  | cons kv rest ih => rw [List.foldl_cons, ih, length_place]

/-- After redistributing `pairs` into `bs` (of bucket count `n`), bucket `t`
holds its previous contents followed by, in order, exactly the pairs whose key
hashes to `t`. -/
theorem foldl_place_getD {K V : Type} (hashK : K → Nat) (pairs : List (K × V)) :
    ∀ (bs : List (List (K × V))) (n t : Nat), bs.length = n → t < n →
      (pairs.foldl (place hashK) bs).getD t [] =
        bs.getD t [] ++ pairs.filter (fun kv => decide (hashK kv.1 % n = t)) := by
  induction pairs with
  | nil => intro bs n t hlen ht; simp
  | cons kv rest ih =>
    intro bs n t hlen ht
    rw [List.foldl_cons, List.filter_cons]
    have hlen' : (place hashK bs kv).length = n := by rw [length_place, hlen]
    by_cases hidx : hashK kv.1 % n = t
    · rw [if_pos (by simp [hidx])]
      rw [ih (place hashK bs kv) n t hlen' ht]
      unfold place
      rw [hlen, hidx]
      rw [getD_set_self _ _ _ _ (by rw [hlen]; exact ht)]
      rw [List.append_assoc, List.singleton_append]
    · rw [if_neg (by simp [hidx])]
      rw [ih (place hashK bs kv) n t hlen' ht]
      unfold place
      rw [hlen]
      rw [getD_set_ne _ _ _ hidx]

/-- Filtering to the pairs whose key hashes to `key`'s own bucket does not
change the first pair with key `key`. -/
theorem find?_filter_key {K V : Type} [DecidableEq K] (hashK : K → Nat)
    (l : List (K × V)) (key : K) (n t : Nat) (ht : hashK key % n = t) :
    (l.filter (fun kv => decide (hashK kv.1 % n = t))).find?
        (fun kv => decide (kv.1 = key)) =
      l.find? (fun kv => decide (kv.1 = key)) := by
  induction l with
  | nil => rfl
  | cons kv rest ih =>
    obtain ⟨a, b⟩ := kv
    rw [List.filter_cons]
    by_cases hak : a = key
    · rw [if_pos (by simp [hak, ht])]
      rw [List.find?_cons_of_pos _ (by simp [hak]), List.find?_cons_of_pos _ (by simp [hak])]
    · by_cases hf : hashK a % n = t
      · rw [if_pos (by simp [hf])]
        rw [List.find?_cons_of_neg _ (by simp [hak]), List.find?_cons_of_neg _ (by simp [hak])]
        exact ih
      · rw [if_neg (by simp [hf])]
        rw [List.find?_cons_of_neg _ (by simp [hak])]
        exact ih

/-- When every pair with key `key` can only sit in bucket `t`, scanning the
flattened storage finds the same first match as scanning bucket `t`. -/
theorem flatten_find?_eq {K V : Type} [DecidableEq K] (key : K)
    (bl : List (List (K × V))) :
    ∀ t : Nat, (∀ j kv, kv ∈ bl.getD j [] → kv.1 = key → j = t) →
      bl.flatten.find? (fun kv => decide (kv.1 = key)) =
        (bl.getD t []).find? (fun kv => decide (kv.1 = key)) := by
  induction bl with
  | nil =>
    intro t H
    rw [List.getD_eq_default _ _ (by simp)]
    rfl
  | cons b rest ih =>
    intro t H
    rw [List.flatten_cons]
    cases t with
    | zero =>
      rw [List.getD_cons_zero]
      cases hf : b.find? (fun kv => decide (kv.1 = key)) with
      | some x => exact find?_append_some hf
      | none =>
        rw [find?_append_none hf]
        apply List.find?_eq_none.mpr
        intro kv hkv hq
        obtain ⟨b', hb', hkvb⟩ := List.mem_flatten.mp hkv
        obtain ⟨i, hi, hgd⟩ := getD_eq_of_mem_lt hb'
        have hmem : kv ∈ (b :: rest).getD (i + 1) [] := by
          rw [List.getD_cons_succ, hgd]; exact hkvb
        exact Nat.succ_ne_zero i (H (i + 1) kv hmem (of_decide_eq_true hq))
    | succ t' =>
      rw [List.getD_cons_succ]
      have hb : b.find? (fun kv => decide (kv.1 = key)) = none := by
        apply List.find?_eq_none.mpr
        intro kv hkv hq
        have h0 : (0 : Nat) = t' + 1 :=
          H 0 kv (by rw [List.getD_cons_zero]; exact hkv) (of_decide_eq_true hq)
        exact absurd h0 (by omega)
      rw [find?_append_none hb]
      refine ih t' (fun j kv hm he => ?_)
      have := H (j + 1) kv (by rw [List.getD_cons_succ]; exact hm) he
      omega

/-! ## `get` through `resize` and through the insert body -/

theorem bucketIdx_eq_some {K V : Type} (hashK : K → Nat) (m : Map K V) (key : K)
    {idx : Nat} (h : m.bucketIdx hashK key = some idx) :
    0 < m.buckets.length ∧ idx = hashK key % m.buckets.length ∧
      idx < m.buckets.length := by
  unfold Map.bucketIdx at h
  by_cases hl : m.buckets.length = 0
  · rw [if_pos hl] at h; simp at h
  · rw [if_neg hl] at h
    have hp : 0 < m.buckets.length := by omega
    cases h
    exact ⟨hp, rfl, Nat.mod_lt _ hp⟩

theorem get_some_length_pos {K V : Type} [DecidableEq K] (hashK : K → Nat)
    (m : Map K V) (key : K) {o : Option V} (h : m.get hashK key = some o) :
    0 < m.buckets.length := by
  unfold Map.get Map.bucketIdx at h
  by_cases hl : m.buckets.length = 0
  · rw [if_pos hl] at h; simp at h
  · omega

/-- `Map::resize` preserves the result of `get` on every placement-correct
map with at least one bucket. -/
theorem resize_get {K V : Type} [DecidableEq K] (hashK : K → Nat) (m : Map K V)
    (hwf : m.WF hashK) (hlen : 0 < m.buckets.length) (key : K) :
    (m.resize hashK).get hashK key = m.get hashK key := by
  have hne : ¬ (m.buckets.length = 0) := by omega
  have hn2 : 0 < 2 * m.buckets.length := by omega
  have hmod : hashK key % (2 * m.buckets.length) < 2 * m.buckets.length :=
    Nat.mod_lt _ hn2
  simp only [Map.resize, if_neg hne]
  have hlen2 :
      ((m.buckets.flatten).foldl (place hashK)
        (List.replicate (2 * m.buckets.length) [])).length = 2 * m.buckets.length := by
    rw [length_foldl_place, List.length_replicate]
  unfold Map.get Map.bucketIdx
  simp only [hlen2, if_neg (by omega : ¬ (2 * m.buckets.length = 0)), if_neg hne,
    Option.map_some']
  rw [foldl_place_getD hashK m.buckets.flatten _ (2 * m.buckets.length) _
      (List.length_replicate _ _) hmod]
  rw [getD_replicate, List.nil_append]
  rw [find?_filter_key hashK m.buckets.flatten key (2 * m.buckets.length) _ rfl]
  rw [flatten_find?_eq key m.buckets (hashK key % m.buckets.length) ?H]
  case H =>
    intro j kv hm he
    by_cases hj : j < m.buckets.length
    · have hplace := hwf j hj kv hm
      rw [he] at hplace
      exact hplace.symm
    · rw [List.getD_eq_default _ _ (by omega)] at hm
      simp at hm

/-- The resize check before an insert preserves every present association. -/
theorem maybeResize_get {K V : Type} [DecidableEq K] (hashK : K → Nat) (m : Map K V)
    (hwf : m.WF hashK) (key : K) (w : V) (h : m.get hashK key = some (some w)) :
    (m.maybeResize hashK).get hashK key = some (some w) := by
  unfold Map.maybeResize
  split
  · rw [resize_get hashK m hwf (get_some_length_pos hashK m key h) key]; exact h
  · exact h

/-- After the insert body stores `(k, v)`, `get k` finds `v`. -/
theorem insertPostResize_get_self {K V : Type} [DecidableEq K] (hashK : K → Nat)
    (m : Map K V) (k : K) (v : V) (prev : Option V) (s' : Map K V)
    (h : m.insertPostResize hashK k v = some (prev, s')) :
    s'.get hashK k = some (some v) := by
  unfold Map.insertPostResize at h
  cases hb : m.bucketIdx hashK k with
  | none => rw [hb] at h; simp at h
  | some idx =>
    obtain ⟨hlen0, hidx, hlt⟩ := bucketIdx_eq_some hashK m k hb
    rw [hb] at h
    simp only [Option.map_some'] at h
    cases hrep : replaceVal k v (m.buckets.getD idx []) with
    | some pr =>
      obtain ⟨p, b'⟩ := pr
      rw [hrep] at h
      cases h
      unfold Map.get Map.bucketIdx
      simp only [List.length_set, if_neg (by omega : ¬ (m.buckets.length = 0)),
        Option.map_some']
      rw [← hidx, getD_set_self _ _ _ _ hlt]
      exact congrArg some (replaceVal_find?_self hrep)
    | none =>
      rw [hrep] at h
      cases h
      unfold Map.get Map.bucketIdx
      simp only [List.length_set, if_neg (by omega : ¬ (m.buckets.length = 0)),
        Option.map_some']
      rw [← hidx, getD_set_self _ _ _ _ hlt]
      rw [find?_append_none (replaceVal_none_find? hrep)]
      rw [List.find?_cons_of_pos _ (by simp)]
      rfl

/-- The insert body changes no association of any other key. -/
theorem insertPostResize_get_other {K V : Type} [DecidableEq K] (hashK : K → Nat)
    (m : Map K V) {k k' : K} (hne : k' ≠ k) (v : V) (prev : Option V) (s' : Map K V)
    (h : m.insertPostResize hashK k v = some (prev, s')) :
    s'.get hashK k' = m.get hashK k' := by
  unfold Map.insertPostResize at h
  cases hb : m.bucketIdx hashK k with
  | none => rw [hb] at h; simp at h
  | some idx =>
    obtain ⟨hlen0, hidx, hlt⟩ := bucketIdx_eq_some hashK m k hb
    rw [hb] at h
    simp only [Option.map_some'] at h
    have hgoal : ∀ B : List (K × V),
        B.find? (fun kv => decide (kv.1 = k')) =
          (m.buckets.getD idx []).find? (fun kv => decide (kv.1 = k')) →
        ({ m with buckets := m.buckets.set idx B, items := m.items + 1 } :
            Map K V).get hashK k' = m.get hashK k' := by
      intro B hfind
      unfold Map.get Map.bucketIdx
      simp only [List.length_set, if_neg (by omega : ¬ (m.buckets.length = 0)),
        Option.map_some']
      by_cases ht : idx = hashK k' % m.buckets.length
      · rw [← ht, getD_set_self _ _ _ _ hlt, hfind, ht]
      · rw [getD_set_ne _ _ _ ht]
    cases hrep : replaceVal k v (m.buckets.getD idx []) with
    | some pr =>
      obtain ⟨p, b'⟩ := pr
      rw [hrep] at h
      cases h
      exact hgoal b' (replaceVal_find?_other hne hrep)
    | none =>
      rw [hrep] at h
      cases h
      exact hgoal _ (find?_append_single_other hne v _)

/-! ## C5: insert-then-get, with resize preserving all prior associations -/

/-- C5: whenever `insert(k, v)` completes (returning `prev` and the new
state `s'`), an immediate `get(k)` yields `v`; and on every placement-correct
map state, every other key's association survives the insert — in particular
an insert that triggers a resize preserves every previously inserted key's
value. -/
theorem map_insert_get_resize_preserves {K V : Type} [DecidableEq K]
    (hashK : K → Nat) (s : Map K V) (k : K) (v : V) (prev : Option V) (s' : Map K V)
    (hins : Map.insert hashK s k v = some (prev, s')) :
    Map.get hashK s' k = some (some v) ∧
    (Map.WF hashK s → ∀ k' w, k' ≠ k → Map.get hashK s k' = some (some w) →
      Map.get hashK s' k' = some (some w)) := by
  unfold Map.insert at hins
  refine ⟨insertPostResize_get_self hashK _ k v prev s' hins, ?_⟩
  intro hwf k' w hne hget
  rw [insertPostResize_get_other hashK _ hne v prev s' hins]
  exact maybeResize_get hashK s hwf k' w hget

/-- C5 witness: inserting key 2 into the two-pair map `mapTwo` triggers a
resize (2 buckets → 4 buckets); afterwards `get 2` finds 30 and the
pre-existing key 0 still maps to 10. -/
theorem map_insert_get_resize_preserves_witness :
    Map.get hashNat mapThree 2 = some (some 30) ∧
    Map.get hashNat mapThree 0 = some (some 10) := by
  have h := map_insert_get_resize_preserves hashNat mapTwo 2 30 none mapThree rfl
  exact ⟨h.1, h.2 (by decide) 0 10 (by decide) rfl⟩

end DS
